import Mathlib

/-!
Shallow embedding of `src/imagefaces.py` (thomaspatzke/ImageSearch).

The script locates faces in images, stores per-image JSON result files and
optionally annotated images, and prints a summary line.  The embedding below
translates the script's functions (`get_exif`, `prepare_image`,
`process_image`, the `Pool.imap` driver loop) into pure Lean functions over
explicit state:

* the module-level `PIL.ExifTags.TAGS` dictionary (which the script mutates
  through `setdefault`) is threaded as an explicit association list `Tags`;
* the filesystem is an association list from path strings to file data;
* the external capabilities (PIL image loading, `face_recognition` calls,
  and write success/failure of the disk) are a record `Env` of functions,
  so that per-item failures of lines 43, 66, 68, 72 and 88 are expressible;
* worker pools are modelled by running the per-item function sequentially in
  an arbitrary order (items are independent work units; order quantification
  stands in for completion order / worker count).

Machine reals (face descriptor floats) are opaque payloads, modelled as
`List Int`; no claim inspects their numeric values.
-/

namespace ImageFaces

/-- Association list lookup with first-match semantics, used for the TAGS
dictionary, EXIF dictionaries and the filesystem map. -/
def alookup {α β : Type} [DecidableEq α] : List (α × β) → α → Option β
  | [], _ => none
  | kv :: rest, k => if kv.1 = k then some kv.2 else alookup rest k

/-- Key of the dictionary produced by `get_exif` (line 36-40): either a tag
name string from `ExifTags.TAGS`, or the raw numeric tag id that
`TAGS.setdefault(k, k)` returns for ids missing from `TAGS`. -/
inductive EKey
  | name (s : String)
  | id (n : Nat)
deriving DecidableEq

/-- The module-level `PIL.ExifTags.TAGS` dictionary: numeric tag id to value.
The script mutates it via `setdefault`, so it is threaded explicitly. -/
abbrev Tags := List (Nat × EKey)

/-- Raw EXIF data of an image, `dict(img.getexif())`: tag id to value.  Only
integer-valued tags matter to the script (it reads `Orientation`). -/
abbrev ExifRaw := List (Nat × Nat)

/-- Dictionary built by the comprehension in `get_exif`. -/
abbrev ExifDict := List (EKey × Nat)

/-- The fragment of `PIL.ExifTags.TAGS` relevant to the script: the standard
dictionary maps tag id 274 to the name "Orientation" (modelled external
constant; the script only ever reads this entry). -/
def pilTags : Tags := [(274, EKey.name "Orientation")]

/-- Python `TAGS.setdefault(k, k)` (line 38): return the stored value for
`k`, inserting the identity entry `(k, k)` first when `k` is absent.  The
insertion is the mutation of the module-level dictionary. -/
def tagsSetdefault (tags : Tags) (k : Nat) : Tags × EKey :=
  match alookup tags k with
  | some v => (tags, v)
  | none => (tags ++ [(k, EKey.id k)], EKey.id k)

/-- Python dict assignment `d[f(k)] = v` as executed left-to-right by the
dict comprehension in `get_exif`: overwrite in place, else append. -/
def dictInsert (d : ExifDict) (k : EKey) (v : Nat) : ExifDict :=
  match d with
  | [] => [(k, v)]
  | kv :: rest => if kv.1 = k then (k, v) :: rest else kv :: dictInsert rest k v

/-- The key/value pairs of `get_exif`'s comprehension in evaluation order,
together with the final state of the mutated `TAGS` dictionary. -/
def exifPairs (tags : Tags) : ExifRaw → Tags × List (EKey × Nat)
  | [] => (tags, [])
  | kv :: rest =>
    let sd := tagsSetdefault tags kv.1
    let r := exifPairs sd.1 rest
    (r.1, (sd.2, kv.2) :: r.2)

/-- Build the comprehension's dict from its pairs in evaluation order. -/
def dictOfPairs (l : List (EKey × Nat)) : ExifDict :=
  l.foldl (fun d kv => dictInsert d kv.1 kv.2) []

/-- Lines 36-40: `get_exif(img)` returns
`{TAGS.setdefault(k, k): v for k, v in dict(img.getexif()).items()}`.
The first component is the (possibly mutated) `TAGS` dictionary. -/
def get_exif (tags : Tags) (e : ExifRaw) : Tags × ExifDict :=
  ((exifPairs tags e).1, dictOfPairs (exifPairs tags e).2)

/-- An in-memory image: dimensions, a pixel grid and its EXIF metadata. -/
structure Img where
  width : Nat
  height : Nat
  px : Nat → Nat → Nat
  exif : ExifRaw

/-- PIL `Image.ROTATE_90` transpose (rotate 90 degrees counterclockwise). -/
def rot90 (img : Img) : Img :=
  { width := img.height, height := img.width,
    px := fun x y => img.px (img.width - 1 - y) x,
    exif := img.exif }

/-- PIL `Image.ROTATE_180` transpose. -/
def rot180 (img : Img) : Img :=
  { width := img.width, height := img.height,
    px := fun x y => img.px (img.width - 1 - x) (img.height - 1 - y),
    exif := img.exif }

/-- PIL `Image.ROTATE_270` transpose (rotate 90 degrees clockwise). -/
def rot270 (img : Img) : Img :=
  { width := img.height, height := img.width,
    px := fun x y => img.px y (img.height - 1 - x),
    exif := img.exif }

/-- Modelled from the spec: size computation of the external
`Image.thumbnail((s, s), ...)` primitive invoked on line 47 (Pillow's
documented algorithm, which section 4.1 of the spec describes as "downscale
so that the larger of width/height is at most `max_dimension`, preserving
aspect ratio, no upscaling").  Each dimension exceeding the bound is clamped
to it and the other dimension is scaled proportionally, rounded down and
kept at least 1. -/
def thumbnailSize (w h s : Nat) : Nat × Nat :=
  let x1 := if s < w then s else w
  let y1 := if s < w then max (h * s / w) 1 else h
  let x2 := if s < y1 then max (x1 * s / y1) 1 else x1
  let y2 := if s < y1 then s else y1
  (x2, y2)

/-- The effect of `img.thumbnail((s, s), Image.LINEAR)` on the image: new
dimensions from `thumbnailSize`, resampled pixels (the resampling filter is
abstracted as coordinate scaling: no verified claim inspects resampled pixel
values), EXIF metadata preserved. -/
def thumbnailImg (img : Img) (s : Nat) : Img :=
  let sz := thumbnailSize img.width img.height s
  { width := sz.1, height := sz.2,
    px := fun x y => img.px (x * img.width / max sz.1 1) (y * img.height / max sz.2 1),
    exif := img.exif }

/-- Recognized configuration of the script (the `args` globals the pipeline
reads: lines 17-21). -/
structure Config where
  output : String
  image_resize : Nat
  generate_image : Bool
  model : String

/-- Lines 42-58 after a successful `Image.open`: downscale with `thumbnail`,
read the orientation from `get_exif(img).setdefault("Orientation", 1)`, and
rotate for orientation tags 8, 3 and 6 (all other tag values, including the
mirrored variants 2, 4, 5, 7, fall through unrotated).  Returns the mutated
`TAGS` dictionary together with the prepared image.  `Image.open` itself is
modelled at the call site in `process_image` (its failure is the propagated
load error). -/
def prepare_image (tags : Tags) (cfg : Config) (img0 : Img) : Tags × Img :=
  let img := thumbnailImg img0 cfg.image_resize
  let ge := get_exif tags img.exif
  let o := (alookup ge.2 (EKey.name "Orientation")).getD 1
  let img2 :=
    if o = 8 then rot90 img
    else if o = 3 then rot180 img
    else if o = 6 then rot270 img
    else img
  (ge.1, img2)

/-- A face bounding box as returned by `face_recognition.face_locations`:
`(top, right, bottom, left)` in pixel coordinates. -/
structure Box where
  top : Nat
  right : Nat
  bottom : Nat
  left : Nat
deriving DecidableEq

/-- The JSON document written per image (lines 73-79): locations, encodings
(face descriptors, opaque numeric payloads), source path, destination path,
in this field order. -/
structure ResultRecord where
  locations : List Box
  encodings : List (List Int)
  source : String
  destination : String
deriving DecidableEq

/-- Comma-separated rendering of JSON list elements. -/
def commaSep (l : List String) : String := String.intercalate ", " l

/-- JSON rendering of one face location tuple. -/
def jsonLoc (b : Box) : String :=
  "[" ++ toString b.top ++ ", " ++ toString b.right ++ ", "
    ++ toString b.bottom ++ ", " ++ toString b.left ++ "]"

/-- JSON rendering of one face descriptor. -/
def jsonEnc (e : List Int) : String :=
  "[" ++ commaSep (e.map toString) ++ "]"

/-- JSON string literal (paths in this model contain no escapes). -/
def jsonStr (s : String) : String := "\"" ++ s ++ "\""

/-- The text `json.dump(..., indent=2)` produces for a `ResultRecord`
(lines 72-82): stable field order `locations`, `encodings`, `source`,
`destination` with two-space indentation (inner list indentation is
abbreviated; the verified claims depend on the stable field order and on
the textual, incrementally-written nature of the output, not on exact
whitespace). -/
def serialize (r : ResultRecord) : String :=
  "\x7b\n  \"locations\": [" ++ commaSep (r.locations.map jsonLoc)
    ++ "],\n  \"encodings\": [" ++ commaSep (r.encodings.map jsonEnc)
    ++ "],\n  \"source\": " ++ jsonStr r.source
    ++ ",\n  \"destination\": " ++ jsonStr r.destination
    ++ "\n\x7d"

/-- Lines 84-87: `draw.rectangle((l, t, r, b), outline="red", width=3)` -
paint a 3-pixel red outline of the box onto the image. -/
def drawRect (img : Img) (b : Box) : Img :=
  { img with px := fun x y =>
      if b.left ≤ x ∧ x ≤ b.right ∧ b.top ≤ y ∧ y ≤ b.bottom ∧
          (x < b.left + 3 ∨ b.right < x + 3 ∨ y < b.top + 3 ∨ b.bottom < y + 3)
      then 0xFF0000 else img.px x y }

/-- Draw every detected box, in order, onto (a copy of) the image. -/
def drawBoxes (img : Img) (locs : List Box) : Img := locs.foldl drawRect img

/-- Contents of a file in the output directory: JSON text or a saved image. -/
inductive FileData
  | text (s : String)
  | image (img : Img)

/-- The shared output filesystem: path to file contents. -/
abbrev Fs := List (String × FileData)

/-- Write (create or overwrite) a file. -/
def fsWrite : Fs → String → FileData → Fs
  | [], p, c => [(p, c)]
  | kv :: rest, p, c => if kv.1 = p then (p, c) :: rest else kv :: fsWrite rest p c

/-- `Path(p).exists()` (line 63): the result file presence check, which is
the script's sole completion marker. -/
def fsExists (f : Fs) (p : String) : Bool := (alookup f p).isSome

/-- An input path: directory part, stem (base name without extension) and
extension, mirroring `pathlib.Path.stem` / `.name`. -/
structure PathP where
  dir : String
  stem : String
  ext : String
deriving DecidableEq

/-- `path.name` - stem plus extension. -/
def PathP.name (p : PathP) : String := p.stem ++ p.ext

/-- `str(path)` - the full path string identifying the item. -/
def PathP.full (p : PathP) : String := p.dir ++ "/" ++ p.name

/-- Line 61: `f"{args.output}/{path.stem}.json"`. -/
def json_out_path (cfg : Config) (p : PathP) : String :=
  cfg.output ++ "/" ++ p.stem ++ ".json"

/-- Line 62: `f"{args.output}/{path.name}"`. -/
def img_out_path (cfg : Config) (p : PathP) : String :=
  cfg.output ++ "/" ++ p.name

/-- The external capabilities `process_image` consumes, as functions:
`load` is `PIL.Image.open` (`none` = unreadable/corrupt file, the raised
load error); `face_locations` and `face_encodings` are the
`face_recognition` calls on the pixel array (`none` = the external
capability raised); `diskOk` tells whether a write to the given path
succeeds (`false` = the raised OS error, e.g. disk full). -/
structure Env where
  load : String → Option Img
  face_locations : Img → String → Option (List Box)
  face_encodings : Img → List Box → Option (List (List Int))
  diskOk : String → Bool

/-- The exception that escapes `process_image` for one item, by the stage
that raised it.  The script catches none of them. -/
inductive ItemError
  | loadErr
  | detectionErr
  | persistErr
  | annotErr
deriving DecidableEq

/-- Outcome of running `process_image` on one item: the mutated `TAGS`
dictionary, the filesystem after whatever writes happened before returning
or raising, and either the returned face count or the escaped exception. -/
structure StepResult where
  tags : Tags
  fs : Fs
  res : Except ItemError Nat

/-- Lines 60-91: the per-item pipeline.  If the result file already exists
the item returns 0 immediately.  Otherwise: load and prepare the image,
locate faces, compute encodings only when at least one face was found,
write the JSON record, and (when enabled) draw the boxes and save the
annotated image, returning the face count.  Any stage failure escapes as
the corresponding exception with the writes made so far still on disk. -/
def process_image (env : Env) (cfg : Config) (tags : Tags) (fs : Fs) (p : PathP) :
    StepResult :=
  let jop := json_out_path cfg p
  let iop := img_out_path cfg p
  if fsExists fs jop then ⟨tags, fs, Except.ok 0⟩
  else
    match env.load p.full with
    | none => ⟨tags, fs, Except.error ItemError.loadErr⟩
    | some img0 =>
      let pr := prepare_image tags cfg img0
      match env.face_locations pr.2 cfg.model with
      | none => ⟨pr.1, fs, Except.error ItemError.detectionErr⟩
      | some locations =>
        match (if 0 < locations.length
               then env.face_encodings pr.2 locations
               else some []) with
        | none => ⟨pr.1, fs, Except.error ItemError.detectionErr⟩
        | some encodings =>
          let record : ResultRecord := ⟨locations, encodings, p.full, iop⟩
          if env.diskOk jop then
            let fs1 := fsWrite fs jop (FileData.text (serialize record))
            if cfg.generate_image then
              if env.diskOk iop then
                ⟨pr.1, fsWrite fs1 iop (FileData.image (drawBoxes pr.2 locations)),
                  Except.ok locations.length⟩
              else ⟨pr.1, fs1, Except.error ItemError.annotErr⟩
            else ⟨pr.1, fs1, Except.ok locations.length⟩
          else ⟨pr.1, fs, Except.error ItemError.persistErr⟩

/-- Lines 93-94: the driver loop over all input paths.  `Pool.imap` is
modelled as sequential processing in list order (items are independent;
order quantification in the theorems stands in for completion order and
worker count).  The first escaped exception aborts the loop, exactly as the
exception re-raised from `imap` aborts `list(...)`; files written before
the abort remain. -/
def runBatch (env : Env) (cfg : Config) :
    Tags → Fs → List PathP → Tags × Fs × Except ItemError (List Nat)
  | t, f, [] => (t, f, Except.ok [])
  | t, f, p :: rest =>
    let r := process_image env cfg t f p
    match r.res with
    | Except.error e => (r.tags, r.fs, Except.error e)
    | Except.ok n =>
      let rb := runBatch env cfg r.tags r.fs rest
      (rb.1, rb.2.1, rb.2.2.map (fun cs => n :: cs))

/-- Line 95: the printed summary. -/
def summaryLine (faces imgs : Nat) : String :=
  "Identified " ++ toString faces ++ " faces in " ++ toString imgs ++ " images."

/-- The whole batch: the summary line is printed only when every item
resolved without an exception (an exception escapes `list(p.imap(...))`
before the `print`). -/
def batchMain (env : Env) (cfg : Config) (t : Tags) (f : Fs) (paths : List PathP) :
    Option String :=
  match (runBatch env cfg t f paths).2.2 with
  | Except.ok counts => some (summaryLine counts.sum paths.length)
  | Except.error _ => none

/-- The face count the item at `p` yields against a given state: the
returned count when `process_image` succeeds there, 0 otherwise.  Used to
characterize batch totals against the initial state. -/
def eFaces (env : Env) (cfg : Config) (t : Tags) (f : Fs) (p : PathP) : Nat :=
  match (process_image env cfg t f p).res with
  | Except.ok n => n
  | Except.error _ => 0

/-- Prefix of a string, used to model the partially-written contents of the
result file when the process crashes during `json.dump`. -/
def strTake (s : String) (k : Nat) : String := String.mk (s.data.take k)

/-- The write trace of lines 72-82: `open(json_out_path, "w")` creates (or
truncates) the file at the final output path immediately; `json.dump`
then appends the serialized text incrementally.  `persistStepFs f p r k`
is the filesystem after the file was opened and the first `k` characters
were written - the state a crash at that point leaves behind.  The write
happens directly at `p`; no temporary path is involved. -/
def persistStepFs (f : Fs) (p : String) (r : ResultRecord) (k : Nat) : Fs :=
  fsWrite f p (FileData.text (strTake (serialize r) k))

/-- `TagsExt t0 t` says `t` is the result of `setdefault`-mutations of `t0`:
every key is either bound as in `t0`, or was absent from `t0` and is now
bound to its identity entry.  Every value `setdefault` can return, and hence
the entire EXIF dictionary `get_exif` builds, is invariant under such
mutation - which is why the script behaves identically no matter how many
images each worker processed before. -/
def TagsExt (t0 t : Tags) : Prop :=
  ∀ k, alookup t k = alookup t0 k ∨
    (alookup t0 k = none ∧ alookup t k = some (EKey.id k))

/-- The value `TAGS.setdefault(k, k)` yields over the pristine base
dictionary `t0`. -/
def mkey (t0 : Tags) (k : Nat) : EKey :=
  (tagsSetdefault t0 k).2

/-- `Rdist cfg p q` says the output paths of the two distinct items do not
collide (distinct stems, and neither annotated-image path equals the other
item's JSON path).  The script offers no protection against such
collisions - see the counterexample for the skip-count claim - so the
order-independence results are proved under this hypothesis. -/
def Rdist (cfg : Config) (p q : PathP) : Prop :=
  json_out_path cfg p ≠ json_out_path cfg q ∧
  img_out_path cfg p ≠ json_out_path cfg q ∧
  img_out_path cfg q ≠ json_out_path cfg p

instance (cfg : Config) (p q : PathP) : Decidable (Rdist cfg p q) := by
  unfold Rdist
  infer_instance

/-! ### Concrete instances used by witnesses and counterexamples -/

/-- The script's default configuration: output to the current directory,
resize bound 1024, annotated images enabled, hog model. -/
def cfgW : Config := ⟨".", 1024, true, "hog"⟩

/-- A sample face box. -/
def boxW : Box := ⟨0, 5, 5, 0⟩

/-- A small image without EXIF data. -/
def imgPlain : Img := ⟨30, 20, fun _ _ => 0, []⟩

/-- The spec's scenario image: 3000x2000 pixels with orientation tag 6. -/
def imgW6 : Img := ⟨3000, 2000, fun _ _ => 0, [(274, 6)]⟩

/-- An image carrying an EXIF tag id (9999) that is not in `TAGS`. -/
def imgUnknownTag : Img := ⟨10, 10, fun _ _ => 0, [(9999, 5)]⟩

/-- Sample input paths with distinct stems. -/
def pW : PathP := ⟨"d", "a", ".jpg"⟩

/-- A second input path, stem distinct from `pW`. -/
def pG : PathP := ⟨"g", "g", ".jpg"⟩

/-- A sample result record with one face. -/
def rW : ResultRecord := ⟨[boxW], [[0]], "d/a.jpg", "./a.jpg"⟩

/-- A healthy environment: every image loads, detection finds one face,
one descriptor per box, all writes succeed. -/
def envW : Env :=
  ⟨fun _ => some imgPlain, fun _ _ => some [boxW],
   fun _ locs => some (locs.map (fun _ => ([0] : List Int))), fun _ => true⟩

/-- An environment whose image loads always fail. -/
def envFail : Env := ⟨fun _ => none, fun _ _ => some [], fun _ _ => some [], fun _ => true⟩

/-- An environment where loading `pW`'s file fails but everything else works. -/
def envC2 : Env :=
  ⟨fun s => if s = "d/a.jpg" then none else some imgPlain,
   fun _ _ => some [boxW],
   fun _ locs => some (locs.map (fun _ => ([0] : List Int))), fun _ => true⟩

/-- An environment where writing the annotated image `./a.jpg` fails while
all other writes succeed. -/
def envC9 : Env :=
  ⟨fun _ => some imgPlain, fun _ _ => some [boxW],
   fun _ locs => some (locs.map (fun _ => ([0] : List Int))),
   fun q => !(q == "./a.jpg")⟩

/-- An environment whose detector finds no faces and whose descriptor
extractor would fail if it were ever invoked. -/
def envZero : Env :=
  ⟨fun _ => some imgPlain, fun _ _ => some [], fun _ _ => none, fun _ => true⟩

/-- An image of the given width (height 10, no EXIF). -/
def imgOfWidth (n : Nat) : Img := ⟨n, 10, fun _ _ => 0, []⟩

/-- Five input paths for the skip-count scenario; `pA4` and `pB4` share the
stem `x` although they are distinct files. -/
def pA4 : PathP := ⟨"a", "x", ".jpg"⟩

/-- Second path with stem `x` (distinct file, colliding output path). -/
def pB4 : PathP := ⟨"b", "x", ".jpg"⟩

/-- Third scenario path, stem `c`. -/
def pC4 : PathP := ⟨"c", "c", ".jpg"⟩

/-- Fourth scenario path, stem `d`; its result file already exists. -/
def pD4 : PathP := ⟨"d", "d", ".jpg"⟩

/-- Fifth scenario path, stem `e`; its result file already exists. -/
def pE4 : PathP := ⟨"e", "e", ".jpg"⟩

/-- An environment where detection finds `width / 10` faces, so the items of
the skip-count scenario are distinguishable by their face counts. -/
def envC4 : Env :=
  ⟨fun s => if s = "a/x.jpg" then some (imgOfWidth 10)
            else if s = "b/x.jpg" then some (imgOfWidth 20)
            else some (imgOfWidth 40),
   fun img _ => some (List.replicate (img.width / 10) boxW),
   fun _ locs => some (locs.map (fun _ => ([0] : List Int))), fun _ => true⟩

/-- Initial filesystem of the skip-count scenario: result files for the
stems `d` and `e` already exist. -/
def fsC4 : Fs := [("./d.json", FileData.text "done"), ("./e.json", FileData.text "done")]

/-- Initial filesystem with a complete one-face record for `pW`. -/
def fsC1 : Fs := [("./a.json", FileData.text (serialize rW))]

/-! ### Helper lemmas: association lists and filesystem writes -/

theorem alookup_append {α β : Type} [DecidableEq α] (l1 l2 : List (α × β)) (k : α) :
    alookup (l1 ++ l2) k =
      match alookup l1 k with
      | some v => some v
      | none => alookup l2 k := by
  induction l1 with
  | nil => simp [alookup]
  | cons kv rest ih =>
    by_cases h : kv.1 = k
    · simp [alookup, h]
    · simp [alookup, h, ih]

theorem alookup_fsWrite (f : Fs) (p : String) (c : FileData) (q : String) :
    alookup (fsWrite f p c) q = if p = q then some c else alookup f q := by
  induction f with
  | nil => simp [fsWrite, alookup]
  | cons kv rest ih =>
    by_cases h : kv.1 = p
    · subst h
      by_cases hq : kv.1 = q <;> simp [fsWrite, alookup, hq]
    · by_cases hq : kv.1 = q
      · subst hq
        have h2 : ¬p = kv.1 := fun he => h he.symm
        simp [fsWrite, if_neg h, alookup, h2]
      · simp [fsWrite, alookup, h, hq, ih]

theorem fsExists_fsWrite (f : Fs) (p : String) (c : FileData) (q : String) :
    fsExists (fsWrite f p c) q = (p = q || fsExists f q) := by
  unfold fsExists
  rw [alookup_fsWrite]
  by_cases h : p = q <;> simp [h]

/-! ### Helper lemmas: the mutated TAGS dictionary -/

theorem tagsExt_refl (t0 : Tags) : TagsExt t0 t0 := fun _ => Or.inl rfl

theorem tagsSetdefault_val {t0 t : Tags} (h : TagsExt t0 t) (k : Nat) :
    (tagsSetdefault t k).2 = (tagsSetdefault t0 k).2 := by
  unfold tagsSetdefault
  rcases h k with h1 | ⟨h0, h1⟩
  · rw [h1]
    cases alookup t0 k <;> rfl
  · rw [h0, h1]

theorem tagsSetdefault_ext {t0 t : Tags} (h : TagsExt t0 t) (k : Nat) :
    TagsExt t0 (tagsSetdefault t k).1 := by
  unfold tagsSetdefault
  cases hk : alookup t k with
  | some v => exact h
  | none =>
    intro j
    rw [alookup_append]
    cases hj : alookup t j with
    | some v =>
      simp only
      rcases h j with h1 | ⟨h0, h1⟩
      · exact Or.inl (by rw [← h1, hj])
      · exact Or.inr ⟨h0, by rw [← h1, hj]⟩
    | none =>
      simp only
      by_cases hkj : k = j
      · subst hkj
        rcases h k with h1 | ⟨h0, h1⟩
        · exact Or.inr ⟨by rw [← h1, hj], by simp [alookup]⟩
        · rw [hj] at h1; exact absurd h1 (by simp)
      · rcases h j with h1 | ⟨h0, h1⟩
        · refine Or.inl ?_
          rw [← h1, hj]
          simp [alookup, hkj]
        · rw [hj] at h1; exact absurd h1 (by simp)

theorem exifPairs_snd {t0 t : Tags} (e : ExifRaw) (h : TagsExt t0 t) :
    (exifPairs t e).2 = e.map (fun kv => (mkey t0 kv.1, kv.2)) := by
  induction e generalizing t with
  | nil => simp [exifPairs]
  | cons kv rest ih =>
    simp only [exifPairs, List.map]
    refine congrArg₂ _ ?_ (ih (tagsSetdefault_ext h kv.1))
    rw [tagsSetdefault_val h kv.1]
    rfl

theorem exifPairs_ext {t0 t : Tags} (e : ExifRaw) (h : TagsExt t0 t) :
    TagsExt t0 (exifPairs t e).1 := by
  induction e generalizing t with
  | nil => exact h
  | cons kv rest ih => exact ih (tagsSetdefault_ext h kv.1)

theorem tagsSetdefault_preserve (t : Tags) (k0 k : Nat) (v : EKey)
    (h : alookup t k = some v) : alookup (tagsSetdefault t k0).1 k = some v := by
  unfold tagsSetdefault
  cases h0 : alookup t k0 with
  | some w => exact h
  | none =>
    simp only
    rw [alookup_append, h]

theorem tagsSetdefault_untouched (t : Tags) (k0 k : Nat) (hne : k ≠ k0) :
    alookup (tagsSetdefault t k0).1 k = alookup t k := by
  unfold tagsSetdefault
  cases h0 : alookup t k0 with
  | some w => rfl
  | none =>
    simp only
    rw [alookup_append]
    cases hk : alookup t k with
    | some v => rfl
    | none =>
      have hne2 : ¬k0 = k := fun he => hne he.symm
      simp [alookup, hne2]

theorem tagsSetdefault_inserted (t : Tags) (k0 : Nat) (h : alookup t k0 = none) :
    alookup (tagsSetdefault t k0).1 k0 = some (EKey.id k0) := by
  unfold tagsSetdefault
  rw [h]
  simp only
  rw [alookup_append, h]
  simp [alookup]

theorem exifPairs_lookup_present (e : ExifRaw) :
    ∀ (t : Tags) (k : Nat) (v : EKey), alookup t k = some v →
      alookup (exifPairs t e).1 k = some v := by
  induction e with
  | nil => intro t k v h; exact h
  | cons kv rest ih =>
    intro t k v h
    calc alookup (exifPairs t (kv :: rest)).1 k
        = alookup (exifPairs (tagsSetdefault t kv.1).1 rest).1 k := rfl
      _ = some v := ih _ k v (tagsSetdefault_preserve t kv.1 k v h)

theorem exifPairs_lookup_untouched (e : ExifRaw) :
    ∀ (t : Tags) (k : Nat), k ∉ e.map Prod.fst →
      alookup (exifPairs t e).1 k = alookup t k := by
  induction e with
  | nil => intro t k _; rfl
  | cons kv rest ih =>
    intro t k hk
    have hk1 : k ≠ kv.1 := by
      intro he
      exact hk (by simp [he])
    have hk2 : k ∉ rest.map Prod.fst := by
      intro hmem
      exact hk (by simp [hmem])
    calc alookup (exifPairs t (kv :: rest)).1 k
        = alookup (exifPairs (tagsSetdefault t kv.1).1 rest).1 k := rfl
      _ = alookup (tagsSetdefault t kv.1).1 k := ih _ k hk2
      _ = alookup t k := tagsSetdefault_untouched t kv.1 k hk1

theorem exifPairs_lookup_inserted (e : ExifRaw) :
    ∀ (t : Tags) (k : Nat), k ∈ e.map Prod.fst → alookup t k = none →
      alookup (exifPairs t e).1 k = some (EKey.id k) := by
  induction e with
  | nil => intro t k hk _; simp at hk
  | cons kv rest ih =>
    intro t k hk habs
    by_cases hk1 : k = kv.1
    · calc alookup (exifPairs t (kv :: rest)).1 k
          = alookup (exifPairs (tagsSetdefault t kv.1).1 rest).1 k := rfl
        _ = some (EKey.id k) := by
            rw [hk1]
            exact exifPairs_lookup_present rest _ kv.1 (EKey.id kv.1)
              (tagsSetdefault_inserted t kv.1 (hk1 ▸ habs))
    · have hk2 : k ∈ rest.map Prod.fst := by
        rw [List.map_cons] at hk
        rcases List.mem_cons.mp hk with h1 | h1
        · exact absurd h1 hk1
        · exact h1
      calc alookup (exifPairs t (kv :: rest)).1 k
          = alookup (exifPairs (tagsSetdefault t kv.1).1 rest).1 k := rfl
        _ = some (EKey.id k) :=
            ih _ k hk2 ((tagsSetdefault_untouched t kv.1 k hk1).trans habs)

theorem get_exif_snd {t0 t : Tags} (e : ExifRaw) (h : TagsExt t0 t) :
    (get_exif t e).2 = (get_exif t0 e).2 := by
  unfold get_exif
  rw [exifPairs_snd e h, exifPairs_snd e (tagsExt_refl t0)]

theorem get_exif_ext {t0 t : Tags} (e : ExifRaw) (h : TagsExt t0 t) :
    TagsExt t0 (get_exif t e).1 :=
  exifPairs_ext e h

theorem prepare_image_snd {t0 t : Tags} (cfg : Config) (img0 : Img)
    (h : TagsExt t0 t) :
    (prepare_image t cfg img0).2 = (prepare_image t0 cfg img0).2 := by
  simp only [prepare_image]
  rw [get_exif_snd _ h]

theorem prepare_image_ext {t0 t : Tags} (cfg : Config) (img0 : Img)
    (h : TagsExt t0 t) :
    TagsExt t0 (prepare_image t cfg img0).1 :=
  get_exif_ext _ h

/-! ### Helper lemmas: the per-item pipeline -/

theorem process_image_skip (env : Env) (cfg : Config) (t : Tags) (f : Fs) (p : PathP)
    (h : fsExists f (json_out_path cfg p) = true) :
    process_image env cfg t f p = ⟨t, f, Except.ok 0⟩ := by
  unfold process_image
  simp [h]

theorem process_image_frame (env : Env) (cfg : Config) (t : Tags) (f : Fs) (p : PathP)
    (q : String) (hj : q ≠ json_out_path cfg p) (hi : q ≠ img_out_path cfg p) :
    alookup (process_image env cfg t f p).fs q = alookup f q := by
  have hj' : ¬json_out_path cfg p = q := fun he => hj he.symm
  have hi' : ¬img_out_path cfg p = q := fun he => hi he.symm
  unfold process_image
  by_cases hex : fsExists f (json_out_path cfg p)
  · simp [hex]
  · simp only [hex, Bool.false_eq_true, if_false]
    cases env.load p.full with
    | none => rfl
    | some img0 =>
      simp only
      cases env.face_locations (prepare_image t cfg img0).2 cfg.model with
      | none => rfl
      | some locations =>
        simp only
        cases (if 0 < locations.length
               then env.face_encodings (prepare_image t cfg img0).2 locations
               else some []) with
        | none => rfl
        | some encodings =>
          simp only
          by_cases hdj : env.diskOk (json_out_path cfg p)
          · by_cases hg : cfg.generate_image
            · by_cases hdi : env.diskOk (img_out_path cfg p)
              · simp [hdj, hg, hdi, alookup_fsWrite, hj', hi']
              · simp [hdj, hg, hdi, alookup_fsWrite, hj']
            · simp [hdj, hg, alookup_fsWrite, hj']
          · simp [hdj]

theorem process_image_mono (env : Env) (cfg : Config) (t : Tags) (f : Fs) (p : PathP)
    (q : String) (h : fsExists f q = true) :
    fsExists (process_image env cfg t f p).fs q = true := by
  unfold process_image
  by_cases hex : fsExists f (json_out_path cfg p)
  · simp [hex, h]
  · simp only [hex, Bool.false_eq_true, if_false]
    cases env.load p.full with
    | none => exact h
    | some img0 =>
      simp only
      cases env.face_locations (prepare_image t cfg img0).2 cfg.model with
      | none => exact h
      | some locations =>
        simp only
        cases (if 0 < locations.length
               then env.face_encodings (prepare_image t cfg img0).2 locations
               else some []) with
        | none => exact h
        | some encodings =>
          simp only
          by_cases hdj : env.diskOk (json_out_path cfg p)
          · by_cases hg : cfg.generate_image
            · by_cases hdi : env.diskOk (img_out_path cfg p)
              · simp [hdj, hg, hdi, fsExists_fsWrite, h]
              · simp [hdj, hg, hdi, fsExists_fsWrite, h]
            · simp [hdj, hg, fsExists_fsWrite, h]
          · simp [hdj, h]

theorem process_image_tags_ext (env : Env) (cfg : Config) {t0 t : Tags} (f : Fs)
    (p : PathP) (ht : TagsExt t0 t) :
    TagsExt t0 (process_image env cfg t f p).tags := by
  unfold process_image
  by_cases hex : fsExists f (json_out_path cfg p)
  · simp only [hex, if_true]
    exact ht
  · simp only [hex, Bool.false_eq_true, if_false]
    cases env.load p.full with
    | none => exact ht
    | some img0 =>
      have h1 := prepare_image_ext cfg img0 ht
      simp only
      cases env.face_locations (prepare_image t cfg img0).2 cfg.model with
      | none => exact h1
      | some locations =>
        simp only
        cases (if 0 < locations.length
               then env.face_encodings (prepare_image t cfg img0).2 locations
               else some []) with
        | none => exact h1
        | some encodings =>
          simp only
          by_cases hdj : env.diskOk (json_out_path cfg p)
          · by_cases hg : cfg.generate_image
            · by_cases hdi : env.diskOk (img_out_path cfg p)
              · simp [hdj, hg, hdi]
                exact h1
              · simp [hdj, hg, hdi]
                exact h1
            · simp [hdj, hg]
              exact h1
          · simp [hdj]
            exact h1

theorem process_image_res_inv (env : Env) (cfg : Config) {t0 t : Tags} {f0 f : Fs}
    (p : PathP) (ht : TagsExt t0 t)
    (hf : alookup f (json_out_path cfg p) = alookup f0 (json_out_path cfg p)) :
    (process_image env cfg t f p).res = (process_image env cfg t0 f0 p).res := by
  have hex : fsExists f (json_out_path cfg p) = fsExists f0 (json_out_path cfg p) := by
    unfold fsExists
    rw [hf]
  simp only [process_image]
  rw [hex]
  by_cases hex0 : fsExists f0 (json_out_path cfg p)
  · simp [hex0]
  · simp only [hex0, Bool.false_eq_true, if_false]
    cases env.load p.full with
    | none => rfl
    | some img0 =>
      simp only [prepare_image_snd cfg img0 ht]
      cases env.face_locations (prepare_image t0 cfg img0).2 cfg.model with
      | none => rfl
      | some locations =>
        simp only
        cases (if 0 < locations.length
               then env.face_encodings (prepare_image t0 cfg img0).2 locations
               else some []) with
        | none => rfl
        | some encodings =>
          simp only
          by_cases hdj : env.diskOk (json_out_path cfg p)
          · by_cases hg : cfg.generate_image
            · by_cases hdi : env.diskOk (img_out_path cfg p)
              · simp [hdj, hg, hdi]
              · simp [hdj, hg, hdi]
            · simp [hdj, hg]
          · simp [hdj]

theorem process_image_ok_written (env : Env) (cfg : Config) (t : Tags) (f : Fs)
    (p : PathP) {n : Nat}
    (hok : (process_image env cfg t f p).res = Except.ok n) :
    fsExists (process_image env cfg t f p).fs (json_out_path cfg p) = true := by
  simp only [process_image] at hok
  by_cases hex : fsExists f (json_out_path cfg p)
  · simp [process_image, hex]
  · simp only [hex, Bool.false_eq_true, if_false] at hok
    cases hload : env.load p.full with
    | none => simp [hload] at hok
    | some img0 =>
      simp only [hload] at hok
      cases hdet : env.face_locations (prepare_image t cfg img0).2 cfg.model with
      | none => simp [hdet] at hok
      | some locations =>
        simp only [hdet] at hok
        cases henc : (if 0 < locations.length
                      then env.face_encodings (prepare_image t cfg img0).2 locations
                      else some []) with
        | none => simp [henc] at hok
        | some encodings =>
          simp only [henc] at hok
          by_cases hdj : env.diskOk (json_out_path cfg p)
          · by_cases hg : cfg.generate_image
            · by_cases hdi : env.diskOk (img_out_path cfg p)
              · simp [process_image, hex, hload, hdet, henc, hdj, hg, hdi,
                  fsExists_fsWrite]
              · simp [hdj, hg, hdi] at hok
            · simp [process_image, hex, hload, hdet, henc, hdj, hg,
                fsExists_fsWrite]
          · simp [hdj] at hok

/-! ### Helper lemmas: batch runs -/

theorem rdist_symm (cfg : Config) : Symmetric (Rdist cfg) :=
  fun _ _ h => ⟨h.1.symm, h.2.2, h.2.1⟩

theorem runBatch_master (env : Env) (cfg : Config) (t0 : Tags) (f0 : Fs) :
    ∀ (paths : List PathP) (t : Tags) (f : Fs),
      List.Pairwise (Rdist cfg) paths → TagsExt t0 t →
      (∀ p ∈ paths,
        alookup f (json_out_path cfg p) = alookup f0 (json_out_path cfg p)) →
      (∀ q, fsExists f q = true →
          fsExists (runBatch env cfg t f paths).2.1 q = true)
    ∧ (∀ q, (∀ p ∈ paths, fsExists f0 (json_out_path cfg p) = false →
              q ≠ json_out_path cfg p ∧ q ≠ img_out_path cfg p) →
          alookup (runBatch env cfg t f paths).2.1 q = alookup f q)
    ∧ (∀ counts, (runBatch env cfg t f paths).2.2 = Except.ok counts →
          counts = paths.map (eFaces env cfg t0 f0)
        ∧ ∀ p ∈ paths,
            fsExists (runBatch env cfg t f paths).2.1 (json_out_path cfg p) = true) := by
  intro paths
  induction paths with
  | nil =>
    intro t f _ _ _
    refine ⟨fun q h => h, fun q _ => rfl, fun counts hc => ?_⟩
    simp only [runBatch] at hc
    have : counts = [] := by
      cases hc
      rfl
    subst this
    exact ⟨rfl, by simp⟩
  | cons p rest ih =>
    intro t f hPW ht hagree
    have hPWc := List.pairwise_cons.mp hPW
    have hA : alookup f (json_out_path cfg p) = alookup f0 (json_out_path cfg p) :=
      hagree p (List.mem_cons_self p rest)
    have hAx : fsExists f (json_out_path cfg p) = fsExists f0 (json_out_path cfg p) := by
      unfold fsExists
      rw [hA]
    have ext_r : TagsExt t0 (process_image env cfg t f p).tags :=
      process_image_tags_ext env cfg f p ht
    have step_frame : ∀ q,
        (fsExists f0 (json_out_path cfg p) = false →
          q ≠ json_out_path cfg p ∧ q ≠ img_out_path cfg p) →
        alookup (process_image env cfg t f p).fs q = alookup f q := by
      intro q hq
      by_cases hsk : fsExists f (json_out_path cfg p) = true
      · rw [process_image_skip env cfg t f p hsk]
      · simp only [Bool.not_eq_true] at hsk
        obtain ⟨h1, h2⟩ := hq (hAx ▸ hsk)
        exact process_image_frame env cfg t f p q h1 h2
    have agree_r : ∀ q ∈ rest,
        alookup (process_image env cfg t f p).fs (json_out_path cfg q) =
          alookup f0 (json_out_path cfg q) := by
      intro q hq
      have hR := hPWc.1 q hq
      rw [process_image_frame env cfg t f p _ hR.1.symm hR.2.1.symm]
      exact hagree q (List.mem_cons_of_mem p hq)
    have IH := ih (process_image env cfg t f p).tags (process_image env cfg t f p).fs
      hPWc.2 ext_r agree_r
    cases hres : (process_image env cfg t f p).res with
    | error e =>
      have hrun : runBatch env cfg t f (p :: rest) =
          ((process_image env cfg t f p).tags, (process_image env cfg t f p).fs,
            Except.error e) := by
        simp [runBatch, hres]
      rw [hrun]
      refine ⟨fun q h => process_image_mono env cfg t f p q h,
              fun q hq => step_frame q (hq p (List.mem_cons_self p rest)),
              fun counts hc => ?_⟩
      exact absurd hc (by simp)
    | ok n =>
      have hrun : runBatch env cfg t f (p :: rest) =
          ((runBatch env cfg (process_image env cfg t f p).tags
              (process_image env cfg t f p).fs rest).1,
           (runBatch env cfg (process_image env cfg t f p).tags
              (process_image env cfg t f p).fs rest).2.1,
           (runBatch env cfg (process_image env cfg t f p).tags
              (process_image env cfg t f p).fs rest).2.2.map (fun cs => n :: cs)) := by
        simp [runBatch, hres]
      rw [hrun]
      refine ⟨fun q h => IH.1 q (process_image_mono env cfg t f p q h),
              fun q hq => ?_, fun counts hc => ?_⟩
      · rw [IH.2.1 q (fun p' hp' h' => hq p' (List.mem_cons_of_mem p hp') h')]
        exact step_frame q (hq p (List.mem_cons_self p rest))
      · cases hrb : (runBatch env cfg (process_image env cfg t f p).tags
            (process_image env cfg t f p).fs rest).2.2 with
        | error e =>
          rw [hrb] at hc
          exact absurd hc (by simp [Except.map])
        | ok cs =>
          rw [hrb] at hc
          simp only [Except.map] at hc
          have hcs : counts = n :: cs := by
            cases hc
            rfl
          have IH3 := IH.2.2 cs hrb
          have hres0 : (process_image env cfg t0 f0 p).res = Except.ok n := by
            rw [← process_image_res_inv env cfg p ht hA]
            exact hres
          constructor
          · rw [hcs, IH3.1]
            simp [eFaces, hres0]
          · intro p' hp'
            rcases List.mem_cons.mp hp' with hpp | hp'r
            · subst hpp
              exact IH.1 _ (process_image_ok_written env cfg t f p' hres)
            · exact IH3.2 p' hp'r

/-! ### Helper lemmas: the thumbnail size computation -/

/-- Division bound used for the resize rounding analysis. -/
theorem nat_div_lt_bound (a b : Nat) (hb : 0 < b) : a < a / b * b + b := by
  have hdm := Nat.div_add_mod a b
  have hml := Nat.mod_lt a hb
  linarith

set_option maxHeartbeats 1000000 in
theorem thumbnailSize_spec (w h s : Nat) (hw : 1 ≤ w) (hh : 1 ≤ h) (hs : 1 ≤ s) :
    (thumbnailSize w h s).1 ≤ s
  ∧ (thumbnailSize w h s).2 ≤ s
  ∧ (s < max w h → max (thumbnailSize w h s).1 (thumbnailSize w h s).2 = s)
  ∧ (w ≤ s → h ≤ s → thumbnailSize w h s = (w, h))
  ∧ (thumbnailSize w h s).1 ≤ w
  ∧ (thumbnailSize w h s).2 ≤ h
  ∧ h * (thumbnailSize w h s).1 ≤ w * (thumbnailSize w h s).2 + max w h
  ∧ w * (thumbnailSize w h s).2 ≤ h * (thumbnailSize w h s).1 + max w h := by
  by_cases hsw : s < w
  · -- step 1 fires: x1 = s, y1 = max (h*s/w) 1
    have hw0 : 0 < w := hw
    have hq1 : h * s / w * w ≤ h * s := Nat.div_mul_le_self (h * s) w
    have hq2 : h * s < h * s / w * w + w := nat_div_lt_bound (h * s) w hw0
    by_cases hsy : s < max (h * s / w) 1
    · -- step 2 fires: out (max (s*s / (h*s/w)) 1, s)
      have hqpos : 1 ≤ h * s / w := by
        rcases Nat.eq_zero_or_pos (h * s / w) with h0 | h0
        · exfalso
          rw [h0] at hsy
          simp at hsy
          omega
        · exact h0
      have hymax : max (h * s / w) 1 = h * s / w := Nat.max_eq_left hqpos
      rw [hymax] at hsy
      have hsy' : s + 1 ≤ h * s / w := hsy
      have hu1 : s * s / (h * s / w) * (h * s / w) ≤ s * s :=
        Nat.div_mul_le_self (s * s) (h * s / w)
      have hu2 : s * s < s * s / (h * s / w) * (h * s / w) + h * s / w :=
        nat_div_lt_bound (s * s) (h * s / w) hqpos
      have hwh : w < h := by
        by_contra hc
        push_neg at hc
        have h1 : (s + 1) * w ≤ h * s / w * w := Nat.mul_le_mul_right w hsy'
        have h2 : h * s ≤ w * s := Nat.mul_le_mul_right s hc
        have h3 : (s + 1) * w ≤ w * s := le_trans (le_trans h1 hq1) h2
        nlinarith
      have hMh : max w h = h := Nat.max_eq_right (Nat.le_of_lt hwh)
      have hus : s * s / (h * s / w) < s := by
        have h1 : s * s / (h * s / w) * (s + 1) ≤ s * s / (h * s / w) * (h * s / w) :=
          Nat.mul_le_mul_left _ hsy'
        have h2 : s * s / (h * s / w) * (s + 1) < s * (s + 1) := by nlinarith
        exact lt_of_mul_lt_mul_right h2 (Nat.zero_le _)
      have hx2s : max (s * s / (h * s / w)) 1 ≤ s :=
        Nat.max_le.mpr ⟨Nat.le_of_lt hus, hs⟩
      have hout : thumbnailSize w h s = (max (s * s / (h * s / w)) 1, s) := by
        simp only [thumbnailSize, if_pos hsw, hymax, if_pos hsy]
      rw [hout]
      dsimp only
      refine ⟨hx2s, le_refl s, fun _ => ?_, fun hws _ => absurd hsw (Nat.not_lt.mpr hws),
        hx2s.trans (Nat.le_of_lt hsw), Nat.le_of_lt (lt_trans hsw hwh), ?_, ?_⟩
      · exact Nat.max_eq_right hx2s
      · -- h * max u 1 ≤ w * s + max w h
        rw [hMh]
        rcases Nat.eq_zero_or_pos (s * s / (h * s / w)) with hu0 | hu0
        · rw [hu0, (by norm_num : max 0 1 = 1), Nat.mul_one]
          exact Nat.le_add_left h (w * s)
        · rw [Nat.max_eq_left hu0]
          have hC : s * w ≤ h * s / w * h := by
            have c1 : s * w ≤ (s + 1) * (w + 1) :=
              Nat.mul_le_mul (Nat.le_succ s) (Nat.le_succ w)
            have c2 : (s + 1) * (w + 1) ≤ (h * s / w) * h := Nat.mul_le_mul hsy' hwh
            exact le_trans c1 c2
          have hB : s * (h * s + 1) ≤ s * (h * s / w * w + w) :=
            Nat.mul_le_mul_left s (Nat.succ_le_of_lt hq2)
          have key : h * s * s ≤ (w * s + h) * (h * s / w) := by nlinarith
          have m1 : h * (s * s / (h * s / w) * (h * s / w)) ≤ h * (s * s) :=
            Nat.mul_le_mul_left h hu1
          have step : h * (s * s / (h * s / w)) * (h * s / w) ≤ (w * s + h) * (h * s / w) := by
            nlinarith
          exact Nat.le_of_mul_le_mul_right step hqpos
      · -- w * s ≤ h * max u 1 + max w h
        rw [hMh]
        rcases Nat.eq_zero_or_pos (s * s / (h * s / w)) with hu0 | hu0
        · rw [hu0, (by norm_num : max 0 1 = 1), Nat.mul_one]
          have h1 : s * s < h * s / w := by
            have h1a := hu2
            rw [hu0] at h1a
            simpa using h1a
          have h2 : s * s * w < h * s / w * w := by
            exact Nat.mul_lt_mul_of_lt_of_le h1 (le_refl w) hw0
          have h3 : s * (s * w) < s * h := by nlinarith
          have h4 : s * w < h := Nat.lt_of_mul_lt_mul_left h3
          linarith
        · rw [Nat.max_eq_left hu0]
          have m1 : w * (s * s) < w * (s * s / (h * s / w) * (h * s / w) + h * s / w) :=
            Nat.mul_lt_mul_of_le_of_lt (le_refl w) hu2 hw0
          have m2 : (s * s / (h * s / w) + 1) * (h * s / w * w) ≤
              (s * s / (h * s / w) + 1) * (h * s) :=
            Nat.mul_le_mul_left _ hq1
          have key : s * (w * s) < s * ((s * s / (h * s / w) + 1) * h) := by nlinarith
          have hfin := Nat.lt_of_mul_lt_mul_left key
          nlinarith
    · -- step 2 does not fire: out (s, max (h*s/w) 1)
      have hout : thumbnailSize w h s = (s, max (h * s / w) 1) := by
        simp only [thumbnailSize, if_pos hsw, if_neg hsy]
      rw [hout]
      dsimp only
      push_neg at hsy
      have hqh : max (h * s / w) 1 ≤ h := by
        refine Nat.max_le.mpr ⟨?_, hh⟩
        have h1 : h * s ≤ h * w := Nat.mul_le_mul_left h (Nat.le_of_lt hsw)
        have h2 : h * s / w * w ≤ h * w := le_trans hq1 h1
        have h3 : h * s / w * w ≤ h * w := h2
        exact Nat.le_of_mul_le_mul_right (by linarith : h * s / w * w ≤ h * w) hw0
      refine ⟨le_refl s, hsy, fun _ => Nat.max_eq_left hsy,
        fun hws _ => absurd hsw (Nat.not_lt.mpr hws), Nat.le_of_lt hsw, hqh, ?_, ?_⟩
      · have m1 : h * s / w * w ≤ max (h * s / w) 1 * w :=
          Nat.mul_le_mul_right w (Nat.le_max_left _ 1)
        have hwM : w ≤ max w h := Nat.le_max_left w h
        nlinarith
      · have m1 : max (h * s / w) 1 * w ≤ (h * s / w + 1) * w := by
          exact Nat.mul_le_mul_right w
            (Nat.max_le.mpr ⟨Nat.le_succ _, Nat.succ_le_succ (Nat.zero_le _)⟩)
        have hwM : w ≤ max w h := Nat.le_max_left w h
        nlinarith
  · -- step 1 does not fire: x1 = w, y1 = h
    push_neg at hsw
    by_cases hsh : s < h
    · -- step 2 fires: out (max (w*s/h) 1, s)
      have hh0 : 0 < h := hh
      have hq1 : w * s / h * h ≤ w * s := Nat.div_mul_le_self (w * s) h
      have hq2 : w * s < w * s / h * h + h := nat_div_lt_bound (w * s) h hh0
      have hout : thumbnailSize w h s = (max (w * s / h) 1, s) := by
        simp only [thumbnailSize, if_neg (by omega : ¬s < w), if_pos hsh]
      rw [hout]
      dsimp only
      have hwh : w < h := by omega
      have hqs : w * s / h ≤ s := by
        have h1 : w * s ≤ h * s := Nat.mul_le_mul_right s (Nat.le_of_lt hwh)
        have h2 : w * s / h * h ≤ s * h := by linarith [le_trans hq1 h1]
        exact Nat.le_of_mul_le_mul_right h2 hh0
      have hqw : w * s / h ≤ w := by
        have h1 : w * s ≤ w * h := Nat.mul_le_mul_left w (Nat.le_of_lt hsh)
        have h2 : w * s / h * h ≤ w * h := le_trans hq1 h1
        exact Nat.le_of_mul_le_mul_right h2 hh0
      have hx2s : max (w * s / h) 1 ≤ s := Nat.max_le.mpr ⟨hqs, hs⟩
      have hx2w : max (w * s / h) 1 ≤ w := Nat.max_le.mpr ⟨hqw, hw⟩
      have hMh : h ≤ max w h := Nat.le_max_right w h
      refine ⟨hx2s, le_refl s, fun _ => Nat.max_eq_right hx2s,
        fun _ hhs => absurd hsh (Nat.not_lt.mpr hhs), hx2w, Nat.le_of_lt hsh, ?_, ?_⟩
      · have m1 : max (w * s / h) 1 * h ≤ (w * s / h + 1) * h := by
          exact Nat.mul_le_mul_right h
            (Nat.max_le.mpr ⟨Nat.le_succ _, Nat.succ_le_succ (Nat.zero_le _)⟩)
        nlinarith
      · have m1 : w * s / h * h ≤ max (w * s / h) 1 * h :=
          Nat.mul_le_mul_right h (Nat.le_max_left _ 1)
        nlinarith
    · -- nothing fires: out (w, h)
      push_neg at hsh
      have hout : thumbnailSize w h s = (w, h) := by
        simp only [thumbnailSize, if_neg (by omega : ¬s < w), if_neg (by omega : ¬s < h)]
      rw [hout]
      dsimp only
      refine ⟨hsw, hsh, fun hlt => ?_, fun _ _ => rfl, le_refl w, le_refl h, ?_, ?_⟩
      · rcases lt_max_iff.mp hlt with h1 | h1 <;> omega
      · nlinarith [Nat.le_max_left w h]
      · nlinarith [Nat.le_max_right w h]

/-! ### Helper lemmas: orientation extraction -/

theorem mkey_pil (k : Nat) :
    mkey pilTags k = if 274 = k then EKey.name "Orientation" else EKey.id k := by
  by_cases h : (274 : Nat) = k <;>
    simp [mkey, tagsSetdefault, pilTags, alookup, h]

theorem mkey_pil_inj : Function.Injective (mkey pilTags) := by
  intro a b hab
  rw [mkey_pil, mkey_pil] at hab
  by_cases ha : (274 : Nat) = a
  · by_cases hb : (274 : Nat) = b
    · omega
    · rw [if_pos ha, if_neg hb] at hab
      exact absurd hab (by simp)
  · by_cases hb : (274 : Nat) = b
    · rw [if_neg ha, if_pos hb] at hab
      exact absurd hab (by simp)
    · rw [if_neg ha, if_neg hb] at hab
      exact EKey.id.inj hab

theorem alookup_cons {α β : Type} [DecidableEq α] (a : α × β) (l : List (α × β)) (k : α) :
    alookup (a :: l) k = if a.1 = k then some a.2 else alookup l k := rfl

theorem alookup_mapped_orientation (e : ExifRaw) :
    alookup (e.map (fun kv => (mkey pilTags kv.1, kv.2))) (EKey.name "Orientation") =
      alookup e 274 := by
  induction e with
  | nil => rfl
  | cons kv rest ih =>
    obtain ⟨k, v⟩ := kv
    rw [List.map_cons, alookup_cons, alookup_cons]
    by_cases h : (274 : Nat) = k
    · rw [mkey_pil]
      simp [h]
    · rw [mkey_pil]
      have h2 : ¬k = 274 := fun he => h he.symm
      simp [h, h2, ih]

theorem alookup_eq_none_iff {α β : Type} [DecidableEq α] (l : List (α × β)) (k : α) :
    alookup l k = none ↔ k ∉ l.map Prod.fst := by
  induction l with
  | nil => simp [alookup]
  | cons kv rest ih =>
    obtain ⟨a, b⟩ := kv
    by_cases h : a = k
    · subst h
      simp [alookup]
    · have h2 : ¬k = a := fun he => h he.symm
      simp [alookup, h, h2, ih]

theorem dictInsert_notMem (d : ExifDict) (k : EKey) (v : Nat)
    (h : alookup d k = none) : dictInsert d k v = d ++ [(k, v)] := by
  induction d with
  | nil => rfl
  | cons kv rest ih =>
    by_cases hk : kv.1 = k
    · simp [alookup, hk] at h
    · simp only [alookup, if_neg hk] at h
      simp [dictInsert, hk, ih h]

theorem foldl_dictInsert_nodup :
    ∀ (l : List (EKey × Nat)) (acc : ExifDict),
      (acc.map Prod.fst ++ l.map Prod.fst).Nodup →
      l.foldl (fun d kv => dictInsert d kv.1 kv.2) acc = acc ++ l := by
  intro l
  induction l with
  | nil =>
    intro acc _
    simp
  | cons kv rest ih =>
    intro acc hnd
    have hk : kv.1 ∉ acc.map Prod.fst := by
      intro hmem
      have hd := (List.nodup_append.mp hnd).2.2
      exact hd hmem (List.mem_cons_self _ _)
    have h1 : alookup acc kv.1 = none := (alookup_eq_none_iff acc kv.1).mpr hk
    simp only [List.foldl]
    rw [dictInsert_notMem acc kv.1 kv.2 h1]
    rw [ih (acc ++ [(kv.1, kv.2)]) (by simpa using hnd)]
    simp

theorem get_exif_dict_pil (e : ExifRaw) (hnd : (e.map Prod.fst).Nodup) :
    (get_exif pilTags e).2 = e.map (fun kv => (mkey pilTags kv.1, kv.2)) := by
  unfold get_exif dictOfPairs
  rw [exifPairs_snd e (tagsExt_refl pilTags)]
  have hmapped : ((e.map (fun kv => (mkey pilTags kv.1, kv.2))).map Prod.fst).Nodup := by
    have h1 : (e.map (fun kv => (mkey pilTags kv.1, kv.2))).map Prod.fst =
        (e.map Prod.fst).map (mkey pilTags) := by
      simp [List.map_map]
    rw [h1]
    exact hnd.map mkey_pil_inj
  have := foldl_dictInsert_nodup (e.map (fun kv => (mkey pilTags kv.1, kv.2))) []
    (by simpa using hmapped)
  simpa using this

theorem get_exif_orientation (e : ExifRaw) (hnd : (e.map Prod.fst).Nodup) :
    alookup (get_exif pilTags e).2 (EKey.name "Orientation") = alookup e 274 := by
  rw [get_exif_dict_pil e hnd, alookup_mapped_orientation]

/-! ### Claim theorems -/

/-- C5: normalization reads the EXIF orientation tag (id 274, defaulting to
1 when absent - `alookup img.exif 274` is `none` exactly then) and applies
exactly this rotation mapping to the thumbnailed image: tag 8 rotates 90
degrees in one direction, tag 3 rotates 180 degrees, tag 6 rotates 90
degrees in the other direction, and any other tag value (including the
mirrored variants 2, 4, 5, 7 and tag 1) applies no rotation. -/
theorem c5_orientation_mapping (cfg : Config) (img : Img)
    (hnd : (img.exif.map Prod.fst).Nodup) :
    ((alookup img.exif 274).getD 1 = 8 →
      (prepare_image pilTags cfg img).2 = rot90 (thumbnailImg img cfg.image_resize))
  ∧ ((alookup img.exif 274).getD 1 = 3 →
      (prepare_image pilTags cfg img).2 = rot180 (thumbnailImg img cfg.image_resize))
  ∧ ((alookup img.exif 274).getD 1 = 6 →
      (prepare_image pilTags cfg img).2 = rot270 (thumbnailImg img cfg.image_resize))
  ∧ ((alookup img.exif 274).getD 1 ≠ 8 →
     (alookup img.exif 274).getD 1 ≠ 3 →
     (alookup img.exif 274).getD 1 ≠ 6 →
      (prepare_image pilTags cfg img).2 = thumbnailImg img cfg.image_resize) := by
  have ho : alookup (get_exif pilTags (thumbnailImg img cfg.image_resize).exif).2
      (EKey.name "Orientation") = alookup img.exif 274 := by
    have hex : (thumbnailImg img cfg.image_resize).exif = img.exif := rfl
    rw [hex, get_exif_orientation img.exif hnd]
  refine ⟨fun h => ?_, fun h => ?_, fun h => ?_, fun h8 h3 h6 => ?_⟩ <;>
    simp only [prepare_image] <;> rw [ho]
  · simp [h]
  · simp [h]
  · simp [h]
  · simp [h8, h3, h6]

/-- C5 witness: the spec's scenario image (3000x2000 pixels, orientation
tag 6) is normalized to the 90-degree rotation of its thumbnail. -/
theorem c5_witness :
    (prepare_image pilTags cfgW imgW6).2 = rot270 (thumbnailImg imgW6 1024) :=
  (c5_orientation_mapping cfgW imgW6 (by decide)).2.2.1 (by decide)

/-- C6: normalization never upscales, bounds the larger side by
`max_dimension` (reaching it exactly whenever the input exceeds the bound),
leaves in-bounds images unscaled, and preserves the aspect ratio within one
pixel of rounding (the cross products `height * width'` and
`width * height'` differ by at most `max width height`). -/
theorem c6_resize_bound (img : Img) (s : Nat) (hw : 1 ≤ img.width)
    (hh : 1 ≤ img.height) (hs : 1 ≤ s) :
    ((thumbnailImg img s).width ≤ img.width ∧
      (thumbnailImg img s).height ≤ img.height)
  ∧ max (thumbnailImg img s).width (thumbnailImg img s).height ≤ s
  ∧ (s < max img.width img.height →
      max (thumbnailImg img s).width (thumbnailImg img s).height = s)
  ∧ (img.width ≤ s → img.height ≤ s →
      (thumbnailImg img s).width = img.width ∧
      (thumbnailImg img s).height = img.height)
  ∧ img.height * (thumbnailImg img s).width ≤
      img.width * (thumbnailImg img s).height + max img.width img.height
  ∧ img.width * (thumbnailImg img s).height ≤
      img.height * (thumbnailImg img s).width + max img.width img.height := by
  have h1 : (thumbnailImg img s).width = (thumbnailSize img.width img.height s).1 := rfl
  have h2 : (thumbnailImg img s).height = (thumbnailSize img.width img.height s).2 := rfl
  rw [h1, h2]
  obtain ⟨a1, a2, b, c, d1, d2, e1, e2⟩ := thumbnailSize_spec img.width img.height s hw hh hs
  refine ⟨⟨d1, d2⟩, Nat.max_le.mpr ⟨a1, a2⟩, b, fun hws hhs => ?_, e1, e2⟩
  rw [c hws hhs]
  exact ⟨rfl, rfl⟩

/-- C6 witness: the 3000x2000 scenario image at bound 1024. -/
theorem c6_witness :
    ((thumbnailImg imgW6 1024).width ≤ imgW6.width ∧
      (thumbnailImg imgW6 1024).height ≤ imgW6.height)
  ∧ max (thumbnailImg imgW6 1024).width (thumbnailImg imgW6 1024).height ≤ 1024
  ∧ (1024 < max imgW6.width imgW6.height →
      max (thumbnailImg imgW6 1024).width (thumbnailImg imgW6 1024).height = 1024)
  ∧ (imgW6.width ≤ 1024 → imgW6.height ≤ 1024 →
      (thumbnailImg imgW6 1024).width = imgW6.width ∧
      (thumbnailImg imgW6 1024).height = imgW6.height)
  ∧ imgW6.height * (thumbnailImg imgW6 1024).width ≤
      imgW6.width * (thumbnailImg imgW6 1024).height + max imgW6.width imgW6.height
  ∧ imgW6.width * (thumbnailImg imgW6 1024).height ≤
      imgW6.height * (thumbnailImg imgW6 1024).width + max imgW6.width imgW6.height :=
  c6_resize_bound imgW6 1024 (by decide) (by decide) (by decide)

/-- C7: whenever the external capability returns exactly one descriptor per
box (its contract), every JSON record `process_image` persists has equally
long `locations` and `encodings` lists; in all other branches the result
path is left untouched. -/
theorem c7_record_balanced (env : Env) (cfg : Config) (t : Tags) (f : Fs) (p : PathP)
    (hContract : ∀ (img : Img) (locs : List Box) (encs : List (List Int)),
        env.face_encodings img locs = some encs → encs.length = locs.length)
    (hne : json_out_path cfg p ≠ img_out_path cfg p) :
    alookup (process_image env cfg t f p).fs (json_out_path cfg p) =
      alookup f (json_out_path cfg p)
  ∨ ∃ r : ResultRecord,
      alookup (process_image env cfg t f p).fs (json_out_path cfg p) =
        some (FileData.text (serialize r))
      ∧ r.locations.length = r.encodings.length := by
  have hne' : ¬img_out_path cfg p = json_out_path cfg p := fun he => hne he.symm
  unfold process_image
  by_cases hex : fsExists f (json_out_path cfg p)
  · simp [hex]
  · simp only [hex, Bool.false_eq_true, if_false]
    cases env.load p.full with
    | none => exact Or.inl rfl
    | some img0 =>
      simp only
      cases hdet : env.face_locations (prepare_image t cfg img0).2 cfg.model with
      | none => exact Or.inl rfl
      | some locations =>
        simp only
        cases henc : (if 0 < locations.length
               then env.face_encodings (prepare_image t cfg img0).2 locations
               else some []) with
        | none => exact Or.inl rfl
        | some encodings =>
          simp only
          have hlen : locations.length = encodings.length := by
            by_cases hl : 0 < locations.length
            · rw [if_pos hl] at henc
              exact (hContract _ _ _ henc).symm
            · rw [if_neg hl] at henc
              have he : encodings = [] := by
                injection henc with h0
                exact h0.symm
              subst he
              rw [List.length_nil]
              omega
          by_cases hdj : env.diskOk (json_out_path cfg p)
          · by_cases hg : cfg.generate_image
            · by_cases hdi : env.diskOk (img_out_path cfg p)
              · refine Or.inr ⟨⟨locations, encodings, p.full, img_out_path cfg p⟩, ?_, hlen⟩
                simp [hdj, hg, hdi, alookup_fsWrite, hne']
              · refine Or.inr ⟨⟨locations, encodings, p.full, img_out_path cfg p⟩, ?_, hlen⟩
                simp [hdj, hg, hdi, alookup_fsWrite]
            · refine Or.inr ⟨⟨locations, encodings, p.full, img_out_path cfg p⟩, ?_, hlen⟩
              simp [hdj, hg, alookup_fsWrite]
          · simp [hdj]

/-- C7 witness: a one-face run against the healthy environment. -/
theorem c7_witness :
    alookup (process_image envW cfgW pilTags [] pW).fs (json_out_path cfgW pW) =
      alookup ([] : Fs) (json_out_path cfgW pW)
  ∨ ∃ r : ResultRecord,
      alookup (process_image envW cfgW pilTags [] pW).fs (json_out_path cfgW pW) =
        some (FileData.text (serialize r))
      ∧ r.locations.length = r.encodings.length :=
  c7_record_balanced envW cfgW pilTags [] pW
    (fun img locs encs h => by
      injection h with h1
      rw [← h1, List.length_map])
    (by decide)

/-- C8: when detection yields zero boxes, descriptor extraction is never
invoked (the outcome is identical for every possible `face_encodings`
capability), and a record with empty `locations` and `encodings` arrays is
still persisted at the result path. -/
theorem c8_zero_faces (env : Env) (cfg : Config) (t : Tags) (f : Fs) (p : PathP)
    (img0 : Img)
    (hskip : fsExists f (json_out_path cfg p) = false)
    (hload : env.load p.full = some img0)
    (hdet : env.face_locations (prepare_image t cfg img0).2 cfg.model = some [])
    (hdisk : env.diskOk (json_out_path cfg p) = true)
    (hne : json_out_path cfg p ≠ img_out_path cfg p) :
    (∀ fe, process_image { env with face_encodings := fe } cfg t f p =
        process_image env cfg t f p)
  ∧ alookup (process_image env cfg t f p).fs (json_out_path cfg p) =
      some (FileData.text (serialize ⟨[], [], p.full, img_out_path cfg p⟩)) := by
  have hne' : ¬img_out_path cfg p = json_out_path cfg p := fun he => hne he.symm
  constructor
  · intro fe
    unfold process_image
    simp [hskip, hload, hdet]
  · unfold process_image
    simp only [hskip, Bool.false_eq_true, if_false, hload, hdet]
    by_cases hg : cfg.generate_image
    · by_cases hdi : env.diskOk (img_out_path cfg p)
      · simp [hdisk, hg, hdi, alookup_fsWrite, hne']
      · simp [hdisk, hg, hdi, alookup_fsWrite]
    · simp [hdisk, hg, alookup_fsWrite]

/-- C8 witness: a zero-face image against an environment whose descriptor
extractor would fail if it were ever called. -/
theorem c8_witness :
    (∀ fe, process_image { envZero with face_encodings := fe } cfgW pilTags [] pW =
        process_image envZero cfgW pilTags [] pW)
  ∧ alookup (process_image envZero cfgW pilTags [] pW).fs (json_out_path cfgW pW) =
      some (FileData.text (serialize ⟨[], [], pW.full, img_out_path cfgW pW⟩)) :=
  c8_zero_faces envZero cfgW pilTags [] pW imgPlain rfl rfl rfl rfl (by decide)

/-- C10 counterexample: reading the EXIF metadata of an image that carries
a tag id unknown to `TAGS` (here 9999) mutates the module-level `TAGS`
dictionary - `TAGS.setdefault(k, k)` on line 38 inserts an identity entry -
so the normalizer is not free of side effects beyond reading the file. -/
theorem c10_counterexample :
    (get_exif pilTags [(9999, 5)]).1 ≠ pilTags
  ∧ (prepare_image pilTags cfgW imgUnknownTag).1 ≠ pilTags := by
  constructor
  · decide
  · decide

/-- C10 amended: the normalizer's only state effect beyond reading the
source file is on the module-level `TAGS` dictionary, and that effect is
exactly characterized, for every image: the resulting dictionary is the one
`get_exif` leaves behind, in which every existing entry is preserved
unchanged, an identity entry `(k, k)` has been inserted for every EXIF tag
id `k` of the image that was absent from `TAGS`, and every key outside the
image's EXIF tag ids is untouched.  In particular, when every tag id of the
image's EXIF data is already known to `TAGS` (the common case for real
photographs), `TAGS` is left entirely unchanged. -/
theorem c10_tags_mutation_amended (t : Tags) (cfg : Config) (img : Img) :
    (prepare_image t cfg img).1 = (get_exif t img.exif).1
  ∧ (∀ k v, alookup t k = some v → alookup (get_exif t img.exif).1 k = some v)
  ∧ (∀ k, alookup t k = none → k ∈ img.exif.map Prod.fst →
      alookup (get_exif t img.exif).1 k = some (EKey.id k))
  ∧ (∀ k, alookup t k = none → k ∉ img.exif.map Prod.fst →
      alookup (get_exif t img.exif).1 k = none)
  ∧ ((∀ k ∈ img.exif.map Prod.fst, (alookup t k).isSome = true) →
      (get_exif t img.exif).1 = t ∧ (prepare_image t cfg img).1 = t) := by
  have hfst : (get_exif t img.exif).1 = (exifPairs t img.exif).1 := rfl
  refine ⟨rfl, fun k v hv => ?_, fun k habs hmem => ?_, fun k habs hnm => ?_,
    fun h => ?_⟩
  · rw [hfst]
    exact exifPairs_lookup_present img.exif t k v hv
  · rw [hfst]
    exact exifPairs_lookup_inserted img.exif t k hmem habs
  · rw [hfst, exifPairs_lookup_untouched img.exif t k hnm]
    exact habs
  · have key : ∀ (e : ExifRaw) (tg : Tags),
        (∀ k ∈ e.map Prod.fst, (alookup tg k).isSome = true) →
        (exifPairs tg e).1 = tg := by
      intro e
      induction e with
      | nil => intro tg _; rfl
      | cons kv rest ih =>
        intro tg h'
        have h1 : (alookup tg kv.1).isSome = true := h' kv.1 (by simp)
        cases hl : alookup tg kv.1 with
        | none => rw [hl] at h1; simp at h1
        | some v =>
          have hsd : (tagsSetdefault tg kv.1).1 = tg := by
            simp [tagsSetdefault, hl]
          calc (exifPairs tg (kv :: rest)).1
              = (exifPairs (tagsSetdefault tg kv.1).1 rest).1 := rfl
            _ = (exifPairs tg rest).1 := by rw [hsd]
            _ = tg := ih tg (fun k hk => h' k (by simp [hk]))
    have hg : (get_exif t img.exif).1 = t := key img.exif t h
    exact ⟨hg, hg⟩

/-- C10 witness: on the image carrying the unknown tag id 9999, the known
entry 274 is preserved, the identity entry for 9999 is inserted, an
unrelated absent id (500) stays absent; on an image whose only EXIF tag id
(274) is already in `TAGS`, the dictionary is left unchanged. -/
theorem c10_witness :
    (prepare_image pilTags cfgW imgUnknownTag).1 =
      (get_exif pilTags imgUnknownTag.exif).1
  ∧ alookup (get_exif pilTags imgUnknownTag.exif).1 274 =
      some (EKey.name "Orientation")
  ∧ alookup (get_exif pilTags imgUnknownTag.exif).1 9999 = some (EKey.id 9999)
  ∧ alookup (get_exif pilTags imgUnknownTag.exif).1 500 = none
  ∧ (get_exif pilTags imgW6.exif).1 = pilTags
  ∧ (prepare_image pilTags cfgW imgW6).1 = pilTags := by
  have h1 := c10_tags_mutation_amended pilTags cfgW imgUnknownTag
  have h2 := c10_tags_mutation_amended pilTags cfgW imgW6
  exact ⟨h1.1, h1.2.1 274 (EKey.name "Orientation") rfl,
    h1.2.2.1 9999 rfl (by decide), h1.2.2.2.1 500 rfl (by decide),
    (h2.2.2.2.2 (by decide)).1, (h2.2.2.2.2 (by decide)).2⟩

/-- C2 counterexample: with the first item's image unreadable, the batch
run aborts with the load error - the summary is never printed and the
second (healthy) item is left unprocessed (no result file is created for
it), although processing it alone would succeed with one face.  The error
is not caught and the batch does not continue. -/
theorem c2_counterexample :
    (runBatch envC2 cfgW pilTags [] [pW, pG]).2.2 = Except.error ItemError.loadErr
  ∧ batchMain envC2 cfgW pilTags [] [pW, pG] = none
  ∧ fsExists (runBatch envC2 cfgW pilTags [] [pW, pG]).2.1 (json_out_path cfgW pG) = false
  ∧ (process_image envC2 cfgW pilTags [] pG).res = Except.ok 1 :=
  ⟨rfl, rfl, rfl, rfl⟩

/-- C2 amended: `process_image` catches nothing.  The first item whose
processing raises aborts the whole batch with that exception: the run's
outcome is the error, the filesystem is left exactly as that item's attempt
left it (earlier items' results remain), the remaining items are not
processed, and no summary line is printed. -/
theorem c2_error_aborts_batch_amended (env : Env) (cfg : Config) (t : Tags) (f : Fs)
    (p : PathP) (rest : List PathP) (e : ItemError)
    (herr : (process_image env cfg t f p).res = Except.error e) :
    runBatch env cfg t f (p :: rest) =
      ((process_image env cfg t f p).tags, (process_image env cfg t f p).fs,
        Except.error e)
  ∧ batchMain env cfg t f (p :: rest) = none := by
  have h1 : runBatch env cfg t f (p :: rest) =
      ((process_image env cfg t f p).tags, (process_image env cfg t f p).fs,
        Except.error e) := by
    simp [runBatch, herr]
  refine ⟨h1, ?_⟩
  unfold batchMain
  rw [h1]

/-- C2 witness: a failing load aborts a two-item batch at once. -/
theorem c2_witness :
    runBatch envFail cfgW pilTags [] [pW, pG] =
      ((process_image envFail cfgW pilTags [] pW).tags,
       (process_image envFail cfgW pilTags [] pW).fs, Except.error ItemError.loadErr)
  ∧ batchMain envFail cfgW pilTags [] [pW, pG] = none :=
  c2_error_aborts_batch_amended envFail cfgW pilTags [] pW [pG] ItemError.loadErr rfl

/-- C9 counterexample: when writing the annotated image fails after the
JSON record was persisted, the exception escapes `process_image` - the item
ends in an error (not a logged warning) and the batch aborts - even though
the record is durable on disk.  The claim's "does not mark the item
Failed" does not hold on the code. -/
theorem c9_counterexample :
    (process_image envC9 cfgW pilTags [] pW).res = Except.error ItemError.annotErr
  ∧ fsExists (process_image envC9 cfgW pilTags [] pW).fs (json_out_path cfgW pW) = true
  ∧ (runBatch envC9 cfgW pilTags [] [pW]).2.2 = Except.error ItemError.annotErr :=
  ⟨rfl, rfl, rfl⟩

/-- C9 amended: a failure to render or write the annotated image after a
successful persist raises like any other error - the item's outcome is the
annotation error and a batch containing it aborts - but the
already-persisted `ResultRecord` remains intact on disk. -/
theorem c9_annotation_failure_amended (env : Env) (cfg : Config) (t : Tags) (f : Fs)
    (p : PathP) (img0 : Img) (locations : List Box) (encodings : List (List Int))
    (hskip : fsExists f (json_out_path cfg p) = false)
    (hload : env.load p.full = some img0)
    (hdet : env.face_locations (prepare_image t cfg img0).2 cfg.model = some locations)
    (henc : (if 0 < locations.length
             then env.face_encodings (prepare_image t cfg img0).2 locations
             else some []) = some encodings)
    (hdj : env.diskOk (json_out_path cfg p) = true)
    (hgen : cfg.generate_image = true)
    (hdi : env.diskOk (img_out_path cfg p) = false) :
    (process_image env cfg t f p).res = Except.error ItemError.annotErr
  ∧ alookup (process_image env cfg t f p).fs (json_out_path cfg p) =
      some (FileData.text (serialize ⟨locations, encodings, p.full, img_out_path cfg p⟩))
  ∧ ∀ rest, (runBatch env cfg t f (p :: rest)).2.2 =
      Except.error ItemError.annotErr := by
  have hstep : process_image env cfg t f p =
      ⟨(prepare_image t cfg img0).1,
       fsWrite f (json_out_path cfg p)
         (FileData.text (serialize ⟨locations, encodings, p.full, img_out_path cfg p⟩)),
       Except.error ItemError.annotErr⟩ := by
    unfold process_image
    simp [hskip, hload, hdet, henc, hdj, hgen, hdi]
  refine ⟨by rw [hstep], ?_, fun rest => ?_⟩
  · rw [hstep]
    simp [alookup_fsWrite]
  · simp [runBatch, hstep]

/-- C9 witness: the annotated-image write failure against `envC9`. -/
theorem c9_witness :
    (process_image envC9 cfgW pilTags [] pW).res = Except.error ItemError.annotErr
  ∧ alookup (process_image envC9 cfgW pilTags [] pW).fs (json_out_path cfgW pW) =
      some (FileData.text (serialize ⟨[boxW], [[0]], pW.full, img_out_path cfgW pW⟩))
  ∧ ∀ rest, (runBatch envC9 cfgW pilTags [] (pW :: rest)).2.2 =
      Except.error ItemError.annotErr :=
  c9_annotation_failure_amended envC9 cfgW pilTags [] pW imgPlain [boxW] [[0]]
    rfl rfl rfl rfl rfl rfl rfl

/-- C3 counterexample: persist is not atomic.  A crash immediately after
`open(json_out_path, "w")` (before any character of the record is written)
leaves an empty file at the deterministic final output path; the
subsequent exists check accepts it as a complete result even though its
content is not the serialized record. -/
theorem c3_counterexample :
    fsExists (persistStepFs [] (json_out_path cfgW pW) rW 0) (json_out_path cfgW pW)
      = true
  ∧ alookup (persistStepFs [] (json_out_path cfgW pW) rW 0) (json_out_path cfgW pW) ≠
      some (FileData.text (serialize rW)) := by
  refine ⟨rfl, fun h => ?_⟩
  simp [persistStepFs, fsWrite, alookup] at h
  exact absurd h (by decide)

/-- C3 amended: `persist` writes the serialized record directly at the
final output path, with no temporary file and no rename: at every crash
point strictly before the end of the write, the output path already holds a
file (which the exists check accepts) whose content is a strict prefix of
the serialization, different from the complete record; no other path is
touched. -/
theorem c3_persist_not_atomic_amended (f : Fs) (pth : String) (r : ResultRecord)
    (k : Nat) (hk : k < (serialize r).data.length) :
    fsExists (persistStepFs f pth r k) pth = true
  ∧ alookup (persistStepFs f pth r k) pth =
      some (FileData.text (strTake (serialize r) k))
  ∧ strTake (serialize r) k ≠ serialize r
  ∧ ∀ q, q ≠ pth → alookup (persistStepFs f pth r k) q = alookup f q := by
  refine ⟨?_, ?_, ?_, ?_⟩
  · unfold fsExists persistStepFs
    rw [alookup_fsWrite]
    simp
  · unfold persistStepFs
    rw [alookup_fsWrite]
    simp
  · intro hEq
    have h1 : (strTake (serialize r) k).data.length = (serialize r).data.length := by
      rw [hEq]
    unfold strTake at h1
    simp [List.length_take] at h1
    have h2 : (serialize r).length = (serialize r).data.length := rfl
    omega
  · intro q hq
    unfold persistStepFs
    rw [alookup_fsWrite, if_neg (fun he => hq he.symm)]

/-- C3 witness: the sample one-face record crashed at offset zero. -/
theorem c3_witness :
    fsExists (persistStepFs [] (json_out_path cfgW pW) rW 0) (json_out_path cfgW pW)
      = true
  ∧ alookup (persistStepFs [] (json_out_path cfgW pW) rW 0) (json_out_path cfgW pW) =
      some (FileData.text (strTake (serialize rW) 0))
  ∧ strTake (serialize rW) 0 ≠ serialize rW
  ∧ ∀ q, q ≠ json_out_path cfgW pW →
      alookup (persistStepFs [] (json_out_path cfgW pW) rW 0) q =
        alookup ([] : Fs) q :=
  c3_persist_not_atomic_amended [] (json_out_path cfgW pW) rW 0 (by decide)

/-- C1 counterexample: an item skipped because its result file already
exists contributes 0 to the total, not the `len(locations)` of its existing
record (line 91 returns 0).  Here the single item's existing record holds
one face, yet the completed run reports a total of 0. -/
theorem c1_counterexample :
    (runBatch envW cfgW pilTags fsC1 [pW]).2.2 = Except.ok [0]
  ∧ alookup fsC1 (json_out_path cfgW pW) = some (FileData.text (serialize rW))
  ∧ rW.locations.length = 1
  ∧ ([0] : List Nat).sum ≠ rW.locations.length := by
  refine ⟨rfl, rfl, rfl, by decide⟩

/-- C1 amended: for every completed run over items with non-colliding
output paths, the reported counts are exactly the per-item counts
determined by the initial state - each successfully processed item
contributes its detected-face count and each item skipped for an existing
result file contributes zero - so the total is independent of the order in
which items are processed (and hence of the worker count); the summary
line reports this total across the number of input paths (processed and
skipped alike). -/
theorem c1_total_faces_amended (env : Env) (cfg : Config) (t0 : Tags) (f0 : Fs)
    (paths : List PathP) (counts : List Nat)
    (hPW : List.Pairwise (Rdist cfg) paths)
    (hok : (runBatch env cfg t0 f0 paths).2.2 = Except.ok counts) :
    counts = paths.map (eFaces env cfg t0 f0)
  ∧ (∀ p ∈ paths, fsExists f0 (json_out_path cfg p) = true →
      eFaces env cfg t0 f0 p = 0)
  ∧ batchMain env cfg t0 f0 paths = some (summaryLine counts.sum paths.length)
  ∧ ∀ (paths2 : List PathP) (counts2 : List Nat), paths2.Perm paths →
      (runBatch env cfg t0 f0 paths2).2.2 = Except.ok counts2 →
      counts2.sum = counts.sum := by
  have hM := runBatch_master env cfg t0 f0 paths t0 f0 hPW (tagsExt_refl t0)
    (fun _ _ => rfl)
  have hc := (hM.2.2 counts hok).1
  refine ⟨hc, fun p hp hsk => ?_, ?_, fun paths2 counts2 hperm hok2 => ?_⟩
  · unfold eFaces
    rw [process_image_skip env cfg t0 f0 p hsk]
  · unfold batchMain
    rw [hok]
  · have hPW2 : List.Pairwise (Rdist cfg) paths2 :=
      (List.Perm.pairwise_iff (fun h => rdist_symm cfg h) hperm).mpr hPW
    have hM2 := runBatch_master env cfg t0 f0 paths2 t0 f0 hPW2 (tagsExt_refl t0)
      (fun _ _ => rfl)
    have hc2 := (hM2.2.2 counts2 hok2).1
    rw [hc, hc2]
    exact List.Perm.sum_eq (hperm.map (eFaces env cfg t0 f0))

/-- C1 witness: a two-item run against the healthy environment (one face
per item), with the per-item characterization, the summary line and the
order-independence instantiated on the swapped order. -/
theorem c1_witness :
    ([1, 1] : List Nat) = [pW, pG].map (eFaces envW cfgW pilTags [])
  ∧ batchMain envW cfgW pilTags [] [pW, pG] = some (summaryLine 2 2)
  ∧ ∀ counts2, (runBatch envW cfgW pilTags [] [pG, pW]).2.2 = Except.ok counts2 →
      counts2.sum = 2 := by
  have h := c1_total_faces_amended envW cfgW pilTags [] [pW, pG] [1, 1]
    (by decide) rfl
  exact ⟨h.1, h.2.2.1, fun counts2 hc =>
    h.2.2.2 [pG, pW] counts2 (by decide) hc⟩

/-- C4 counterexample: the skip-count scenario fails when two distinct
input paths share a stem.  Of the five inputs exactly two (`pD4`, `pE4`)
have existing result files and `pB4` does not, yet the run reports `pB4`
as 0 faces: after `pA4` created `./x.json`, the exists check skipped `pB4`
entirely - only two items were actually processed, not three - although
processing `pB4` against the initial filesystem finds two faces. -/
theorem c4_counterexample :
    (runBatch envC4 cfgW pilTags fsC4 [pA4, pB4, pC4, pD4, pE4]).2.2 =
      Except.ok [1, 0, 4, 0, 0]
  ∧ ([pA4, pB4, pC4, pD4, pE4].countP
      (fun p => fsExists fsC4 (json_out_path cfgW p))) = 2
  ∧ fsExists fsC4 (json_out_path cfgW pB4) = false
  ∧ (process_image envC4 cfgW pilTags fsC4 pB4).res = Except.ok 2 :=
  ⟨rfl, rfl, rfl, rfl⟩

/-- C4 amended: an item whose result file exists at its JSON output path is
skipped entirely - `process_image` returns count 0, leaves the `TAGS`
dictionary and filesystem untouched, and its outcome does not depend on any
external capability.  Consequently, for inputs with pairwise non-colliding
output paths, a completed run processes exactly the items whose result file
was initially absent (their result files exist afterwards) and skips
exactly those whose file existed (untouched, contributing zero), in counts
independent of processing order; the processed/skipped split is determined
by the initial filesystem alone, not the worker count.  With colliding
stems an item can additionally be skipped because an earlier item of the
same run created its output path (see the counterexample). -/
theorem c4_skip_semantics_amended :
    (∀ (env env2 : Env) (cfg : Config) (t : Tags) (f : Fs) (p : PathP),
      fsExists f (json_out_path cfg p) = true →
      process_image env cfg t f p = ⟨t, f, Except.ok 0⟩ ∧
      process_image env cfg t f p = process_image env2 cfg t f p)
  ∧ (∀ (env : Env) (cfg : Config) (t0 : Tags) (f0 : Fs) (paths : List PathP)
       (counts : List Nat), List.Pairwise (Rdist cfg) paths →
      (runBatch env cfg t0 f0 paths).2.2 = Except.ok counts →
      (∀ p ∈ paths,
        fsExists (runBatch env cfg t0 f0 paths).2.1 (json_out_path cfg p) = true)
      ∧ (∀ p ∈ paths, fsExists f0 (json_out_path cfg p) = true →
          alookup (runBatch env cfg t0 f0 paths).2.1 (json_out_path cfg p) =
            alookup f0 (json_out_path cfg p)
          ∧ eFaces env cfg t0 f0 p = 0)
      ∧ counts = paths.map (eFaces env cfg t0 f0))
  ∧ (∀ (cfg : Config) (f0 : Fs) (paths paths2 : List PathP), paths2.Perm paths →
      paths2.countP (fun p => fsExists f0 (json_out_path cfg p)) =
        paths.countP (fun p => fsExists f0 (json_out_path cfg p))) := by
  refine ⟨fun env env2 cfg t f p hsk => ?_,
    fun env cfg t0 f0 paths counts hPW hok => ?_,
    fun cfg f0 paths paths2 hperm => ?_⟩
  · exact ⟨process_image_skip env cfg t f p hsk, by
      rw [process_image_skip env cfg t f p hsk,
        process_image_skip env2 cfg t f p hsk]⟩
  · have hM := runBatch_master env cfg t0 f0 paths t0 f0 hPW (tagsExt_refl t0)
      (fun _ _ => rfl)
    refine ⟨(hM.2.2 counts hok).2, fun p hp hsk => ⟨?_, ?_⟩, (hM.2.2 counts hok).1⟩
    · apply hM.2.1
      intro p2 hp2 hns
      by_cases hpp : p = p2
      · subst hpp
        rw [hsk] at hns
        cases hns
      · have hR := hPW.forall (rdist_symm cfg) hp hp2 hpp
        exact ⟨hR.1, fun he => hR.2.2 (he ▸ rfl)⟩
    · unfold eFaces
      rw [process_image_skip env cfg t0 f0 p hsk]
  · exact hperm.countP_eq _

/-- C4 witness: five distinct-stem inputs of which two have existing result
files - the run reports exactly the three fresh items as processed (one
face each) and the two existing ones as skipped and untouched. -/
theorem c4_witness :
    fsExists (runBatch envW cfgW pilTags fsC4 [pW, pG, pC4, pD4, pE4]).2.1
      (json_out_path cfgW pD4) = true
  ∧ eFaces envW cfgW pilTags fsC4 pD4 = 0
  ∧ alookup (runBatch envW cfgW pilTags fsC4 [pW, pG, pC4, pD4, pE4]).2.1
      (json_out_path cfgW pD4) = alookup fsC4 (json_out_path cfgW pD4)
  ∧ ([1, 1, 1, 0, 0] : List Nat) =
      [pW, pG, pC4, pD4, pE4].map (eFaces envW cfgW pilTags fsC4)
  ∧ [pE4, pD4, pC4, pG, pW].countP
      (fun p => fsExists fsC4 (json_out_path cfgW p)) =
    [pW, pG, pC4, pD4, pE4].countP
      (fun p => fsExists fsC4 (json_out_path cfgW p)) := by
  have h := c4_skip_semantics_amended.2.1 envW cfgW pilTags fsC4
    [pW, pG, pC4, pD4, pE4] [1, 1, 1, 0, 0] (by decide) rfl
  have hd : pD4 ∈ [pW, pG, pC4, pD4, pE4] := by simp
  refine ⟨h.1 pD4 hd, (h.2.1 pD4 hd rfl).2, (h.2.1 pD4 hd rfl).1, h.2.2, ?_⟩
  exact c4_skip_semantics_amended.2.2 cfgW fsC4 [pW, pG, pC4, pD4, pE4]
    [pE4, pD4, pC4, pG, pW] (by decide)

end ImageFaces
